import Mathlib

/-!
Verification of the Phala miner lifecycle and pooled staking accounting engine.

The definitions below are a shallow embedding of `pallets/phala/src/mining.rs`
and `pallets/phala/src/stakepool.rs`.  Balances (`u128` in the source) are
modelled as `Nat` with explicit saturation where the source uses saturating
arithmetic; truncated `Nat` subtraction coincides with `saturating_sub`.
Storage maps are modelled as functions into `Option`.  Rust panics
(`unwrap` / `expect`) are modelled as an explicit `Panic` error or `none`.
External collaborators (registry, currency, time source) and repository code
that is referenced but not included (fixed-point balance conversion, the
reward accumulator) are modelled from the specification; each such definition
carries a doc comment starting with `Modelled from the spec:`.
-/

namespace Phala

abbrev Balance := Nat

abbrev AccountId := Nat

abbrev WorkerPublicKey := Nat

/-- Saturation bound of the `u128` balance type. -/
def U128MAX : Nat := 2 ^ 128 - 1

/-- `u128::saturating_add`. -/
def satAdd (a b : Balance) : Balance := min (a + b) U128MAX

/-- `u128::saturating_sub`; truncated `Nat` subtraction is exactly saturating. -/
def satSub (a b : Balance) : Balance := a - b

/-- `u128::checked_sub`. -/
def checkedSub (a b : Balance) : Option Balance :=
  if b ≤ a then some (a - b) else none

/-- Map update helper for storage maps modelled as functions. -/
def mapUpd {α β : Type} [DecidableEq α] (f : α → Option β) (k : α) (v : Option β) :
    α → Option β :=
  fun x => if x = k then v else f x

/-! ## Miner state machine (`mining.rs`) -/

/-- `MinerState` from mining.rs. -/
inductive MinerState
  | Ready
  | MiningIdle
  | MiningActive
  | MiningUnresponsive
  | MiningCoolingDown
deriving DecidableEq, Repr

/-- `MinerState::can_unbind` from mining.rs. -/
def MinerState.can_unbind : MinerState → Bool
  | .Ready => true
  | .MiningCoolingDown => true
  | _ => false

/-- `Benchmark` from mining.rs. -/
structure Benchmark where
  iterations : Nat
  mining_start_time : Nat
deriving DecidableEq, Repr

/-- `MinerInfo` from mining.rs. -/
structure MinerInfo where
  state : MinerState
  ve : Nat
  v : Nat
  v_updated_at : Nat
  p_instant : Nat
  benchmark : Benchmark
  cool_down_start : Nat
deriving DecidableEq, Repr

/-- Modelled from the spec: the worker registry collaborator (§6), exposing
`worker_operator` and `worker_benchmark`; `registry.rs` is not under src. -/
structure WorkerInfo where
  operator : Option AccountId
  initial_score : Option Nat
deriving DecidableEq, Repr

/-- The outbound messages the mining pallet pushes to the mq collaborator. -/
inductive OutMessage
  | MiningStart (worker : WorkerPublicKey) (session_id : Nat) (init_v : Nat)
  | MiningStop (worker : WorkerPublicKey)
deriving DecidableEq, Repr

/-- `Error<T>` of mining.rs, plus an explicit `Panic` case standing for the
`unwrap` / `expect` aborts in the source. -/
inductive MinerError
  | BadSender
  | InvalidMessage
  | WorkerNotRegistered
  | GatekeeperNotRegistered
  | DuplicateBoundMiner
  | BenchmarkMissing
  | MinerNotFound
  | MinerNotBound
  | MinerNotReady
  | MinerNotMining
  | WorkerNotBound
  | StillInCoolDown
  | InsufficientStake
  | Panic
deriving DecidableEq, Repr

/-- The storage and configuration of the mining pallet.  `now` (the `UnixTime`
collaborator) is passed to each operation explicitly. -/
structure MiningState where
  miners : AccountId → Option MinerInfo
  minerBindings : AccountId → Option WorkerPublicKey
  workerBindings : WorkerPublicKey → Option AccountId
  stakes : AccountId → Option Balance
  nextSessionId : Nat
  coolDownPeriod : Nat
  workers : WorkerPublicKey → Option WorkerInfo
  minStaking : Balance
  messages : List OutMessage

/-- `INITIAL_V` from mining.rs. -/
def INITIAL_V : Nat := 1

/-- `can_reclaim` from mining.rs (lines 364-377): the state must be
`MiningCoolingDown` and strictly more than `cool_down_period` seconds must
have elapsed since `cool_down_start`. -/
def can_reclaim (info : MinerInfo) (coolDownPeriod now : Nat) : Bool :=
  info.state = MinerState.MiningCoolingDown && now - info.cool_down_start > coolDownPeriod

/-- `reclaim` from mining.rs (lines 230-248).  On success it returns the new
state together with the stake amount passed to the `OnReclaim` callback
(`Stakes::get(miner).unwrap_or_default()`); the stake record is removed. -/
def reclaim (st : MiningState) (now : Nat) (miner : AccountId) :
    Except MinerError (MiningState × Balance) :=
  match st.miners miner with
  | none => .error .MinerNotFound
  | some info =>
    if can_reclaim info st.coolDownPeriod now then
      let info2 := { info with state := MinerState.Ready, cool_down_start := 0 }
      let stake := (st.stakes miner).getD 0
      .ok ({ st with
              miners := mapUpd st.miners miner (some info2),
              stakes := mapUpd st.stakes miner none }, stake)
    else .error .StillInCoolDown

/-- `stop_mining` from mining.rs (lines 500-523). -/
def stop_mining (st : MiningState) (now : Nat) (miner : AccountId) :
    Except MinerError MiningState :=
  match st.minerBindings miner with
  | none => .error .MinerNotBound
  | some worker =>
    match st.miners miner with
    | none => .error .MinerNotFound
    | some info =>
      if info.state ≠ MinerState.Ready ∧ info.state ≠ MinerState.MiningCoolingDown then
        let info2 := { info with state := MinerState.MiningCoolingDown, cool_down_start := now }
        .ok { st with
                miners := mapUpd st.miners miner (some info2),
                messages := st.messages ++ [OutMessage.MiningStop worker] }
      else .error .MinerNotMining

/-- `start_mining` from mining.rs (lines 455-494).  The `unwrap` on `Miners`
and the `expect` on the registry entry are modelled as `Panic`. -/
def start_mining (st : MiningState) (miner : AccountId) (stake : Balance) :
    Except MinerError MiningState :=
  match st.minerBindings miner with
  | none => .error .MinerNotFound
  | some worker =>
    match st.miners miner with
    | none => .error .Panic
    | some info =>
      if info.state ≠ MinerState.Ready then .error .MinerNotReady
      else
        match st.workers worker with
        | none => .error .Panic
        | some winfo =>
          if winfo.initial_score = none then .error .BenchmarkMissing
          else if stake < st.minStaking then .error .InsufficientStake
          else
            .ok { st with
                    stakes := mapUpd st.stakes miner (some stake),
                    miners := mapUpd st.miners miner
                      (some { info with state := MinerState.MiningIdle }),
                    nextSessionId := st.nextSessionId + 1,
                    messages := st.messages ++
                      [OutMessage.MiningStart worker st.nextSessionId INITIAL_V] }

/-- `unbind_miner` from mining.rs (lines 433-452).  The `expect` on `Miners`
is modelled as `Panic`.  The `OnUnbound` notification carries no data we need
here, so it is not threaded through. -/
def unbind_miner (st : MiningState) (now : Nat) (miner : AccountId) (_notify : Bool) :
    Except MinerError MiningState :=
  match st.minerBindings miner with
  | none => .error .MinerNotBound
  | some worker =>
    match st.miners miner with
    | none => .error .Panic
    | some info =>
      let force := ¬ info.state.can_unbind
      let step : Except MinerError MiningState :=
        if force then stop_mining st now miner else .ok st
      match step with
      | .error e => .error e
      | .ok st2 =>
        .ok { st2 with
                minerBindings := mapUpd st2.minerBindings miner none,
                workerBindings := mapUpd st2.workerBindings worker none }

/-- The signed `unbind` extrinsic from mining.rs (lines 209-222): the signer
`who` must be the registered operator of the worker bound to `miner`. -/
def unbind (st : MiningState) (now : Nat) (who : AccountId) (miner : AccountId) :
    Except MinerError MiningState :=
  match st.minerBindings miner with
  | none => .error .MinerNotBound
  | some pubkey =>
    match st.workers pubkey with
    | none => .error .WorkerNotRegistered
    | some winfo =>
      if winfo.operator = some who then unbind_miner st now miner true
      else .error .BadSender

/-- C5: `reclaim` succeeds exactly when the miner is cooling down and strictly
more than the cool-down period has elapsed; on success the state is reset to
`Ready` and the stake record is removed; otherwise it fails with
`StillInCoolDown`. -/
theorem reclaim_characterization (st : MiningState) (now : Nat) (miner : AccountId)
    (info : MinerInfo) (h : st.miners miner = some info) :
    ((∃ st2 stake, reclaim st now miner = .ok (st2, stake)) ↔
      (info.state = MinerState.MiningCoolingDown ∧
        now - info.cool_down_start > st.coolDownPeriod)) ∧
    (∀ st2 stake, reclaim st now miner = .ok (st2, stake) →
      st2.miners miner = some { info with state := MinerState.Ready, cool_down_start := 0 } ∧
      st2.stakes miner = none) ∧
    (¬ (info.state = MinerState.MiningCoolingDown ∧
        now - info.cool_down_start > st.coolDownPeriod) →
      reclaim st now miner = .error .StillInCoolDown) := by
  have hcan : can_reclaim info st.coolDownPeriod now = true ↔
      (info.state = MinerState.MiningCoolingDown ∧
        now - info.cool_down_start > st.coolDownPeriod) := by
    simp [can_reclaim]
  by_cases hc : can_reclaim info st.coolDownPeriod now = true
  · have hok : reclaim st now miner =
        .ok ({ st with
                miners := mapUpd st.miners miner
                  (some { info with state := MinerState.Ready, cool_down_start := 0 }),
                stakes := mapUpd st.stakes miner none }, (st.stakes miner).getD 0) := by
      simp [reclaim, h, hc]
    refine ⟨⟨fun _ => hcan.mp hc, fun _ => ⟨_, _, hok⟩⟩, ?_, ?_⟩
    · intro st2 stake h2
      rw [hok] at h2
      injection h2 with hpair
      have hst : st2 = { st with
          miners := mapUpd st.miners miner
            (some { info with state := MinerState.Ready, cool_down_start := 0 }),
          stakes := mapUpd st.stakes miner none } := (Prod.mk.injEq _ _ _ _ ▸ hpair).1.symm
      subst hst
      exact ⟨by simp [mapUpd], by simp [mapUpd]⟩
    · intro hne
      exact absurd (hcan.mp hc) hne
  · have herr : reclaim st now miner = .error .StillInCoolDown := by
      simp [reclaim, h, hc]
    refine ⟨⟨?_, ?_⟩, ?_, fun _ => herr⟩
    · rintro ⟨st2, stake, h2⟩
      rw [herr] at h2
      exact absurd h2 (by simp)
    · intro hcond
      exact absurd (hcan.mpr hcond) hc
    · intro st2 stake h2
      rw [herr] at h2
      exact absurd h2 (by simp)

/-- A concrete miner record that has been cooling down since time 0. -/
def coolingMinerInfo : MinerInfo :=
  { state := MinerState.MiningCoolingDown, ve := 0, v := 0, v_updated_at := 0,
    p_instant := 0, benchmark := { iterations := 0, mining_start_time := 0 },
    cool_down_start := 0 }

/-- A concrete mining state: miner 1 cooling down with period 5 and stake 100. -/
def miningState5 : MiningState :=
  { miners := mapUpd (fun _ => none) 1 (some coolingMinerInfo),
    minerBindings := fun _ => none,
    workerBindings := fun _ => none,
    stakes := mapUpd (fun _ => none) 1 (some 100),
    nextSessionId := 0,
    coolDownPeriod := 5,
    workers := fun _ => none,
    minStaking := 10,
    messages := [] }

theorem reclaim_characterization_witness :
    miningState5.miners 1 = some coolingMinerInfo ∧
    (∃ st2 stake, reclaim miningState5 6 1 = .ok (st2, stake)) := by
  have h : miningState5.miners 1 = some coolingMinerInfo := rfl
  exact ⟨h, ((reclaim_characterization miningState5 6 1 _ h).1).2 ⟨rfl, by decide⟩⟩

/-- A concrete mining state for the `start_mining` analysis: miner 1 is bound
to worker 5, its record is in `MiningIdle` state, and worker 5 is registered
with a benchmark score. -/
def miningState7 : MiningState :=
  { miners := mapUpd (fun _ => none) 1
      (some { coolingMinerInfo with state := MinerState.MiningIdle }),
    minerBindings := mapUpd (fun _ => none) 1 (some 5),
    workerBindings := mapUpd (fun _ => none) 5 (some 1),
    stakes := fun _ => none,
    nextSessionId := 0,
    coolDownPeriod := 5,
    workers := mapUpd (fun _ => none) 5 (some { operator := some 9, initial_score := some 100 }),
    minStaking := 10,
    messages := [] }

/-- C7 counterexample: calling `start_mining` on a bound miner whose state is
`MiningIdle` (so the requirement "state is Ready" is violated) with a present
benchmark and a sufficient stake fails with `MinerNotReady`, not with
`MinerNotFound` as the claim states. -/
theorem start_mining_not_ready_counterexample :
    start_mining miningState7 1 100 = .error .MinerNotReady ∧
    MinerError.MinerNotReady ≠ MinerError.MinerNotFound := by
  exact ⟨rfl, by decide⟩

/-- C7 (amended): `start_mining` fails with `MinerNotFound` when the miner has
no binding, `MinerNotReady` when its state is not `Ready`, `BenchmarkMissing`
when the bound worker has no benchmark score, and `InsufficientStake` when the
stake is below the configured minimum; on success it transitions the miner to
`MiningIdle`, records the stake, assigns the next session id (incrementing the
counter, hence monotonically increasing), and emits a
`MiningStart{session_id, init_v}` message. -/
theorem start_mining_characterization (st : MiningState) (miner : AccountId)
    (stake : Balance) :
    (st.minerBindings miner = none → start_mining st miner stake = .error .MinerNotFound) ∧
    (∀ worker info winfo, st.minerBindings miner = some worker →
      st.miners miner = some info → st.workers worker = some winfo →
      (info.state ≠ MinerState.Ready →
        start_mining st miner stake = .error .MinerNotReady) ∧
      (info.state = MinerState.Ready → winfo.initial_score = none →
        start_mining st miner stake = .error .BenchmarkMissing) ∧
      (info.state = MinerState.Ready → winfo.initial_score ≠ none →
        stake < st.minStaking →
        start_mining st miner stake = .error .InsufficientStake) ∧
      (info.state = MinerState.Ready → winfo.initial_score ≠ none →
        st.minStaking ≤ stake →
        start_mining st miner stake = .ok
          { st with
              stakes := mapUpd st.stakes miner (some stake),
              miners := mapUpd st.miners miner
                (some { info with state := MinerState.MiningIdle }),
              nextSessionId := st.nextSessionId + 1,
              messages := st.messages ++
                [OutMessage.MiningStart worker st.nextSessionId INITIAL_V] })) := by
  constructor
  · intro hb
    simp [start_mining, hb]
  · intro worker info winfo hb hm hw
    refine ⟨?_, ?_, ?_, ?_⟩
    · intro hstate
      simp [start_mining, hb, hm, hw, hstate]
    · intro hstate hscore
      simp [start_mining, hb, hm, hw, hstate, hscore]
    · intro hstate hscore hstake
      simp [start_mining, hb, hm, hw, hstate, hscore, hstake, Nat.not_le.mpr hstake]
    · intro hstate hscore hstake
      simp [start_mining, hb, hm, hw, hstate, hscore, Nat.not_lt.mpr hstake]

theorem start_mining_characterization_witness :
    miningState7.minerBindings 1 = some 5 ∧
    start_mining miningState7 1 100 = .error .MinerNotReady := by
  refine ⟨rfl, ?_⟩
  have h := (start_mining_characterization miningState7 1 100).2 5
    { coolingMinerInfo with state := MinerState.MiningIdle }
    { operator := some 9, initial_score := some 100 } rfl rfl rfl
  exact h.1 (by decide)

/-- C10: the signed `unbind` entry point fails with `MinerNotBound` when the
miner has no binding, `WorkerNotRegistered` when the bound worker is not in
the registry, `BadSender` when the signer is not the worker's operator, and
succeeds only when the signer is the registered operator.  (On an error the
extrinsic is rolled back, so bindings are unchanged; in this pure embedding an
error carries no successor state.) -/
theorem unbind_authorization (st : MiningState) (now : Nat) (who miner : AccountId) :
    (st.minerBindings miner = none → unbind st now who miner = .error .MinerNotBound) ∧
    (∀ w, st.minerBindings miner = some w → st.workers w = none →
      unbind st now who miner = .error .WorkerNotRegistered) ∧
    (∀ w wi, st.minerBindings miner = some w → st.workers w = some wi →
      wi.operator ≠ some who → unbind st now who miner = .error .BadSender) ∧
    (∀ st2, unbind st now who miner = .ok st2 →
      ∃ w wi, st.minerBindings miner = some w ∧ st.workers w = some wi ∧
        wi.operator = some who) := by
  refine ⟨?_, ?_, ?_, ?_⟩
  · intro hb
    simp [unbind, hb]
  · intro w hb hw
    simp [unbind, hb, hw]
  · intro w wi hb hw hop
    simp [unbind, hb, hw, hop]
  · intro st2 hok
    rcases hb2 : st.minerBindings miner with _ | w
    · rw [show unbind st now who miner = .error .MinerNotBound by simp [unbind, hb2]] at hok
      exact absurd hok (by simp)
    · rcases hw2 : st.workers w with _ | wi
      · rw [show unbind st now who miner = .error .WorkerNotRegistered by
          simp [unbind, hb2, hw2]] at hok
        exact absurd hok (by simp)
      · by_cases hop : wi.operator = some who
        · exact ⟨w, wi, rfl, hw2, hop⟩
        · rw [show unbind st now who miner = .error .BadSender by
            simp [unbind, hb2, hw2, hop]] at hok
          exact absurd hok (by simp)

/-! ## The heartbeat challenge target (`pow_target`, mining.rs lines 590-608) -/

/-- Release-mode wrap-around of a `u64` quantity (the `U32F32` bit
representation is a `u64`; its arithmetic wraps on overflow when debug
assertions are off, like the primitive integers). -/
def wrap64 (n : Nat) : Nat := n % 2 ^ 64

/-- The U32F32 fixed-point bit representation of a natural number
(32 fractional bits).  `from_num` is only applied to `u32` values in the
source, which always fit. -/
def fpBits (n : Nat) : Nat := n * 2 ^ 32

/-- U32F32 multiplication on bit representations: truncating, wrapping on
overflow of the 64-bit representation. -/
def fpMul (a b : Nat) : Nat := wrap64 (a * b / 2 ^ 32)

/-- U32F32 division on bit representations: truncating, wrapping on overflow
of the 64-bit representation. -/
def fpDiv (a b : Nat) : Nat := wrap64 (a * 2 ^ 32 / b)

/-- `pow_target` from mining.rs, computed on U32F32 bit representations.
`none` models the aborts of the source: the division by zero when
`3600 / secs_per_block = 0` (or `secs_per_block = 0`, where `3600 / 0` itself
panics), the `checked_shl(24)` expect-panic when the shifted bits exceed
`2 ^ 64`, and the `U256` multiplication `(U256::MAX >> 24) * frac`, which
panics unconditionally when the product exceeds the 256-bit range (reachable:
`frac` can reach `2 ^ 25` when `3600 / secs_per_block = 1`).  After a
successful `checked_shl` the bits are below `2 ^ 64`, so `to_num::<u32>` (the
integer part, below `2 ^ 32`) never aborts. -/
def pow_target (num_tx num_workers secs_per_block : Nat) : Option Nat :=
  if num_workers = 0 then some 0
  else if 3600 / secs_per_block = 0 then none
  else
    let w := fpBits num_workers
    let max_tx := fpDiv (fpMul w (fpBits 2)) (fpBits (3600 / secs_per_block))
    let target_tx := min (fpBits num_tx) max_tx
    let d := fpDiv target_tx w
    if 2 ^ 64 ≤ d * 2 ^ 24 then none
    else
      let frac := d * 2 ^ 24 / 2 ^ 32
      if 2 ^ 256 ≤ (2 ^ 256 - 1) / 2 ^ 24 * frac then none
      else some ((2 ^ 256 - 1) / 2 ^ 24 * frac)

/-- `heartbeat_challenge` from mining.rs (lines 297-311): the online target it
emits (`none` when the computation aborts), with the two storage values read
with their source defaults (`unwrap_or(0)` online miners, `unwrap_or(20)`
expected heartbeats). -/
def heartbeat_challenge_target (onlineMiners expectedHeartbeatCount : Option Nat)
    (secs_per_block : Nat) : Option Nat :=
  pow_target (expectedHeartbeatCount.getD 20) (onlineMiners.getD 0) secs_per_block

/-- The spec's formula for the heartbeat target, written with exact rational
arithmetic: `max_tx = online * 2 / (3600 / seconds_per_block)`,
`target_tx = min(expected, max_tx)`, `frac = floor((target_tx / online) * 2^24)`
(zero when `online = 0`), `target = (MAX_256BIT >> 24) * frac`. -/
def pow_target_spec (expected online secs_per_block : Nat) : Nat :=
  if online = 0 then 0
  else
    let max_tx : ℚ := (online : ℚ) * 2 / ((3600 / secs_per_block : Nat) : ℚ)
    let target_tx : ℚ := min (expected : ℚ) max_tx
    let frac : Nat := ⌊target_tx / (online : ℚ) * 2 ^ 24⌋₊
    (2 ^ 256 - 1) / 2 ^ 24 * frac

/-- C9 counterexample: at one block per hour (`secs_per_block = 3600`, so
`3600 / secs_per_block = 1`), one online miner and the default expected count
of 20, the source's `(U256::MAX >> 24) * frac` multiplication overflows
(`frac = 2 ^ 25`) and panics, so the program produces no target at all, while
the claim's formula still assigns one: the claimed equality fails at this
input. -/
theorem heartbeat_target_overflow_counterexample :
    heartbeat_challenge_target (some 1) (some 20) 3600 = none ∧
    some (pow_target_spec 20 1 3600) ≠
      heartbeat_challenge_target (some 1) (some 20) 3600 := by
  have h : heartbeat_challenge_target (some 1) (some 20) 3600 = none := by decide
  refine ⟨h, ?_⟩
  rw [h]
  exact fun hc => Option.noConfusion hc

/-- C9 (amended): on the overflow-free domain — `online < 2 ^ 31` (no
wrap-around of the U32F32 products; the source reads the count as a `u32`),
`expected < 2 ^ 32` (the source's `u32` type), and at least two blocks per
hour (`3600 / secs_per_block ≥ 2`, which rules out the division by zero and
keeps `frac ≤ 2 ^ 24` so the `U256` multiplication cannot panic) — the
per-block heartbeat challenge target computed by the code equals the spec's
formula. -/
theorem heartbeat_target_matches_spec (online expected secs_per_block : Nat)
    (honline : online < 2 ^ 31) (hexpected : expected < 2 ^ 32)
    (hk : 2 ≤ 3600 / secs_per_block) :
    heartbeat_challenge_target (some online) (some expected) secs_per_block =
      some (pow_target_spec expected online secs_per_block) := by
  set K := 3600 / secs_per_block with hK
  have hKpos : 0 < K := by omega
  have hKne : ¬ K = 0 := by omega
  rcases Nat.eq_zero_or_pos online with h0 | hpos
  · subst h0
    simp [heartbeat_challenge_target, pow_target, pow_target_spec]
  have hWne : online ≠ 0 := Nat.pos_iff_ne_zero.mp hpos
  -- the intermediate values stay below 2^64, so the wraps are identities
  have hw1 : online * 2 ^ 33 < 2 ^ 64 := by
    calc online * 2 ^ 33 < 2 ^ 31 * 2 ^ 33 :=
          Nat.mul_lt_mul_of_lt_of_le honline (le_refl _) (by positivity)
      _ = 2 ^ 64 := by norm_num
  have e0 : fpBits expected = expected * 2 ^ 32 := rfl
  have e1 : fpMul (fpBits online) (fpBits 2) = online * 2 ^ 33 := by
    unfold fpMul fpBits wrap64
    rw [show online * 2 ^ 32 * (2 * 2 ^ 32) = online * 2 ^ 33 * 2 ^ 32 by ring,
      Nat.mul_div_cancel _ (show 0 < (2 : Nat) ^ 32 by positivity)]
    exact Nat.mod_eq_of_lt hw1
  have e2 : fpDiv (online * 2 ^ 33) (fpBits K) = online * 2 ^ 33 / K := by
    unfold fpDiv fpBits wrap64
    rw [Nat.mul_div_mul_right _ _ (show 0 < (2 : Nat) ^ 32 by positivity)]
    exact Nat.mod_eq_of_lt (lt_of_le_of_lt (Nat.div_le_self _ _) hw1)
  set T := min (expected * 2 ^ 32) (online * 2 ^ 33 / K) with hT
  have hTlt : T < 2 ^ 64 := by
    calc T ≤ expected * 2 ^ 32 := min_le_left _ _
      _ < 2 ^ 32 * 2 ^ 32 :=
          Nat.mul_lt_mul_of_lt_of_le hexpected (le_refl _) (by positivity)
      _ = 2 ^ 64 := by norm_num
  have e3 : fpDiv T (fpBits online) = T / online := by
    unfold fpDiv fpBits wrap64
    rw [Nat.mul_div_mul_right _ _ (show 0 < (2 : Nat) ^ 32 by positivity)]
    exact Nat.mod_eq_of_lt (lt_of_le_of_lt (Nat.div_le_self _ _) hTlt)
  have hd : T / online ≤ 2 ^ 32 := by
    calc T / online ≤ online * 2 ^ 33 / K / online :=
          Nat.div_le_div_right (min_le_right _ _)
      _ = online * 2 ^ 33 / (K * online) := Nat.div_div_eq_div_mul _ _ _
      _ = 2 ^ 33 / K := by
          rw [Nat.mul_comm K online]
          exact Nat.mul_div_mul_left _ _ hpos
      _ ≤ 2 ^ 33 / 2 := Nat.div_le_div_left hk (by norm_num)
      _ = 2 ^ 32 := by norm_num
  have hshl : ¬ 2 ^ 64 ≤ T / online * 2 ^ 24 := by
    intro hc
    have h1 : T / online * 2 ^ 24 ≤ 2 ^ 32 * 2 ^ 24 := Nat.mul_le_mul_right _ hd
    have h2 : (2 : Nat) ^ 32 * 2 ^ 24 < 2 ^ 64 := by norm_num
    exact absurd hc (not_le.mpr (lt_of_le_of_lt h1 h2))
  have hfrac : T / online * 2 ^ 24 / 2 ^ 32 ≤ 2 ^ 24 := by
    calc T / online * 2 ^ 24 / 2 ^ 32 ≤ 2 ^ 32 * 2 ^ 24 / 2 ^ 32 :=
          Nat.div_le_div_right (Nat.mul_le_mul_right _ hd)
      _ = 2 ^ 24 := by norm_num
  have hdd : T / online * 2 ^ 24 / 2 ^ 32 = T / (online * 2 ^ 8) := by
    rw [show (2 : Nat) ^ 32 = 2 ^ 8 * 2 ^ 24 by norm_num]
    rw [Nat.mul_div_mul_right _ _ (show 0 < (2 : Nat) ^ 24 by positivity)]
    exact Nat.div_div_eq_div_mul _ _ _
  have hfrac2 : T / (online * 2 ^ 8) ≤ 2 ^ 24 := by
    rw [← hdd]
    exact hfrac
  have hmul : ¬ 2 ^ 256 ≤ (2 ^ 256 - 1) / 2 ^ 24 * (T / (online * 2 ^ 8)) := by
    intro hc
    have h1 : (2 ^ 256 - 1) / 2 ^ 24 * (T / (online * 2 ^ 8)) ≤
        (2 ^ 256 - 1) / 2 ^ 24 * 2 ^ 24 := Nat.mul_le_mul_left _ hfrac2
    have h2 : ((2 : Nat) ^ 256 - 1) / 2 ^ 24 * 2 ^ 24 < 2 ^ 256 := by norm_num
    exact absurd hc (not_le.mpr (lt_of_le_of_lt h1 h2))
  have hcode : heartbeat_challenge_target (some online) (some expected) secs_per_block =
      some ((2 ^ 256 - 1) / 2 ^ 24 * (T / (online * 2 ^ 8))) := by
    simp only [heartbeat_challenge_target, Option.getD_some, pow_target, ← hK,
      if_neg hWne, if_neg hKne, e0, e1, e2, ← hT, e3, if_neg hshl, if_neg hmul, hdd]
  rw [hcode]
  simp only [pow_target_spec, if_neg hWne, ← hK, Option.some.injEq]
  congr 1
  rw [hT]
  -- both sides compute `frac`; compare the two min's
  have hQK : ((K : ℚ)) ≠ 0 := by
    exact_mod_cast Nat.pos_iff_ne_zero.mp hKpos
  have hQKpos : (0 : ℚ) < (K : ℚ) := by exact_mod_cast hKpos
  have hQW : ((online : ℚ)) ≠ 0 := by exact_mod_cast hWne
  rcases le_or_lt (expected * 2 ^ 32) (online * 2 ^ 33 / K) with hle | hlt
  · -- the expected count is the minimum on both sides
    rw [min_eq_left hle]
    have h7 : ((expected : ℚ)) * 2 ^ 32 ≤ (online : ℚ) * 2 ^ 33 / (K : ℚ) := by
      calc ((expected : ℚ)) * 2 ^ 32 = ((expected * 2 ^ 32 : ℕ) : ℚ) := by push_cast; ring
        _ ≤ ((online * 2 ^ 33 / K : ℕ) : ℚ) := by exact_mod_cast hle
        _ ≤ ((online * 2 ^ 33 : ℕ) : ℚ) / (K : ℚ) := Nat.cast_div_le
        _ = (online : ℚ) * 2 ^ 33 / (K : ℚ) := by push_cast; ring
    have hspecmin : min (expected : ℚ) ((online : ℚ) * 2 / (K : ℚ)) = (expected : ℚ) := by
      rw [min_eq_left]
      rw [le_div_iff₀ hQKpos]
      rw [le_div_iff₀ hQKpos] at h7
      have h7b : ((expected : ℚ) * K) * 2 ^ 32 ≤ ((online : ℚ) * 2) * 2 ^ 32 := by
        calc ((expected : ℚ) * K) * 2 ^ 32 = (expected : ℚ) * 2 ^ 32 * K := by ring
          _ ≤ (online : ℚ) * 2 ^ 33 := h7
          _ = ((online : ℚ) * 2) * 2 ^ 32 := by ring
      exact le_of_mul_le_mul_right h7b (by positivity)
    rw [hspecmin]
    have h8 : (expected : ℚ) / (online : ℚ) * 2 ^ 24 =
        ((expected * 2 ^ 24 : ℕ) : ℚ) / ((online : ℕ) : ℚ) := by push_cast; ring
    rw [h8, Nat.floor_div_eq_div]
    have h9 : expected * 2 ^ 32 / (online * 2 ^ 8) = expected * 2 ^ 24 / online := by
      rw [show expected * 2 ^ 32 = expected * 2 ^ 24 * 2 ^ 8 by ring]
      exact Nat.mul_div_mul_right _ _ (by positivity)
    rw [h9]
  · -- the rate cap is the minimum on both sides
    rw [min_eq_right (le_of_lt hlt)]
    have h10 : ((online * 2 ^ 33 : ℕ) : ℚ) / (K : ℚ) < ((expected * 2 ^ 32 : ℕ) : ℚ) := by
      apply Nat.lt_of_floor_lt
      rw [Nat.floor_div_eq_div]
      exact hlt
    have h11 : (online : ℚ) * 2 ^ 33 / (K : ℚ) < (expected : ℚ) * 2 ^ 32 := by
      calc (online : ℚ) * 2 ^ 33 / (K : ℚ) = ((online * 2 ^ 33 : ℕ) : ℚ) / (K : ℚ) := by
            push_cast; ring
        _ < ((expected * 2 ^ 32 : ℕ) : ℚ) := h10
        _ = (expected : ℚ) * 2 ^ 32 := by push_cast; ring
    have hspecmin : min (expected : ℚ) ((online : ℚ) * 2 / (K : ℚ)) =
        (online : ℚ) * 2 / (K : ℚ) := by
      rw [min_eq_right]
      apply le_of_lt
      rw [div_lt_iff₀ hQKpos]
      rw [div_lt_iff₀ hQKpos] at h11
      have h11b : ((online : ℚ) * 2) * 2 ^ 32 < ((expected : ℚ) * K) * 2 ^ 32 := by
        calc ((online : ℚ) * 2) * 2 ^ 32 = (online : ℚ) * 2 ^ 33 := by ring
          _ < (expected : ℚ) * 2 ^ 32 * K := h11
          _ = ((expected : ℚ) * K) * 2 ^ 32 := by ring
      exact lt_of_mul_lt_mul_right h11b (by positivity)
    rw [hspecmin]
    have h13 : (online : ℚ) * 2 / (K : ℚ) / (online : ℚ) * 2 ^ 24 =
        ((2 ^ 25 : ℕ) : ℚ) / ((K : ℕ) : ℚ) := by
      field_simp
      ring
    rw [h13, Nat.floor_div_eq_div]
    have h14 : online * 2 ^ 33 / K / (online * 2 ^ 8) = 2 ^ 25 / K := by
      rw [Nat.div_div_eq_div_mul]
      rw [show online * 2 ^ 33 = 2 ^ 25 * (online * 2 ^ 8) by ring,
        Nat.mul_comm K (online * 2 ^ 8), Nat.mul_comm (2 ^ 25) (online * 2 ^ 8)]
      exact Nat.mul_div_mul_left _ _ (by positivity)
    rw [h14]

theorem heartbeat_target_matches_spec_witness :
    (20 : Nat) < 2 ^ 31 ∧ (20 : Nat) < 2 ^ 32 ∧ 2 ≤ 3600 / 12 ∧
    heartbeat_challenge_target (some 20) (some 20) 12 =
      some (pow_target_spec 20 20 12) := by
  exact ⟨by norm_num, by norm_num, by norm_num,
    heartbeat_target_matches_spec 20 20 12 (by norm_num) (by norm_num) (by norm_num)⟩

theorem unbind_authorization_witness :
    miningState7.minerBindings 1 = some 5 ∧
    unbind miningState7 0 7 1 = .error .BadSender := by
  refine ⟨rfl, ?_⟩
  exact ((unbind_authorization miningState7 0 7 1).2.2.1) 5
    { operator := some 9, initial_score := some 100 } rfl rfl (by decide)

/-! ## Pooled stake ledger (`stakepool.rs`) -/

/-- `UserStakeInfo` from stakepool.rs. -/
structure UserStakeInfo where
  user : AccountId
  locked : Balance
  shares : Balance
  available_rewards : Balance
  reward_debt : Balance
deriving DecidableEq, Repr

/-- `WithdrawInfo` from stakepool.rs. -/
structure WithdrawInfo where
  user : AccountId
  shares : Balance
  start_time : Nat
deriving DecidableEq, Repr

/-- `PoolInfo` from stakepool.rs.  `payout_commission` is a `Permill` value in
parts per million; `reward_acc` is the `U64F64` reward-per-share accumulator,
modelled as an exact rational. -/
structure PoolInfo where
  pid : Nat
  owner : AccountId
  payout_commission : Option Nat
  owner_reward : Balance
  cap : Option Balance
  reward_acc : ℚ
  total_shares : Balance
  total_stake : Balance
  free_stake : Balance
  releasing_stake : Balance
  workers : List WorkerPublicKey
  withdraw_queue : List WithdrawInfo
deriving DecidableEq, Repr

/-- Modelled from the spec: fixed-point multiplication of a balance by a
`U64F64` value (`balance_convert::mul`), truncating to a balance;
`balance_convert.rs` is not under src. -/
def bmul (b : Balance) (p : ℚ) : Balance := ⌊(b : ℚ) * p⌋₊

/-- Modelled from the spec: fixed-point division of a balance by a `U64F64`
value (`balance_convert::div`), truncating to a balance. -/
def bdiv (b : Balance) (p : ℚ) : Balance := ⌊(b : ℚ) / p⌋₊

/-- `share_price` from stakepool.rs: `total_stake / total_shares`, `None` when
there are no shares (`checked_div` on the fixed-point values). -/
def share_price (pool : PoolInfo) : Option ℚ :=
  if pool.total_shares = 0 then none
  else some ((pool.total_stake : ℚ) / (pool.total_shares : ℚ))

/-- Modelled from the spec: the reward accumulator's pending amount,
`shares * acc - reward_debt` (saturating); `accumulator.rs` is not under src. -/
def acc_pending (shares : Balance) (acc : ℚ) (debt : Balance) : Balance :=
  satSub (bmul shares acc) debt

/-- `pending_reward` from stakepool.rs. -/
def pending_reward (pool : PoolInfo) (user : UserStakeInfo) : Balance :=
  acc_pending user.shares pool.reward_acc user.reward_debt

/-- `reset_pending_reward` from stakepool.rs: modelled from the spec, the
accumulator's `clear_pending` sets `reward_debt` to the accumulator value
scaled by the user's shares. -/
def reset_pending_reward (pool : PoolInfo) (user : UserStakeInfo) : UserStakeInfo :=
  { user with reward_debt := bmul user.shares pool.reward_acc }

/-- `settle_user_pending_reward` from stakepool.rs (lines 1072-1076): moves the
pending reward into `available_rewards` and clears the pending amount. -/
def settle_user_pending_reward (pool : PoolInfo) (user : UserStakeInfo) : UserStakeInfo :=
  let pending := pending_reward pool user
  reset_pending_reward pool
    { user with available_rewards := satAdd user.available_rewards pending }

/-- `settle_slash` from stakepool.rs (lines 1053-1062): recomputes the user's
`locked` at the current share price and returns the saturating difference
(the amount actually slashed), or `None` if the pool has no shares. -/
def settle_slash (pool : PoolInfo) (user : UserStakeInfo) :
    Option (Balance × UserStakeInfo) :=
  match share_price pool with
  | none => none
  | some price =>
    let new_locked := bmul user.shares price
    some (satSub user.locked new_locked, { user with locked := new_locked })

/-- `PoolInfo::slash` from stakepool.rs (lines 1011-1023): only decrements
`total_stake` (the two `debug_assert!`s are debug-profile only). -/
def poolSlash (pool : PoolInfo) (amount : Balance) : PoolInfo :=
  { pool with total_stake := satSub pool.total_stake amount }

/-- `add_stake` from stakepool.rs (lines 960-976). -/
def add_stake (pool : PoolInfo) (user : UserStakeInfo) (amount : Balance) :
    PoolInfo × UserStakeInfo :=
  let shares :=
    match share_price pool with
    | some price => if price ≠ 0 then bdiv amount price else amount
    | none => amount
  let user2 := { user with
    shares := satAdd user.shares shares,
    locked := satAdd user.locked amount }
  let user3 := reset_pending_reward pool user2
  ({ pool with
      total_shares := pool.total_shares + shares,
      total_stake := satAdd pool.total_stake amount,
      free_stake := satAdd pool.free_stake amount }, user3)

/-- `remove_stake` from stakepool.rs (lines 987-1009): removes `shares` from a
user, returning the removed stake amount, the updated pool and the updated
user record, or `None` (no change) if any `checked_sub` fails. -/
def remove_stake (pool : PoolInfo) (user : UserStakeInfo) (shares : Balance) :
    Option (Balance × PoolInfo × UserStakeInfo) := do
  let total_shares ← checkedSub pool.total_shares shares
  let price ← share_price pool
  let amount0 := bmul shares price
  let amount := min amount0 pool.free_stake
  let user_shares ← checkedSub user.shares shares
  let user_locked ← checkedSub user.locked amount
  let pool2 := { pool with
    free_stake := pool.free_stake - amount,
    total_stake := pool.total_stake - amount,
    total_shares := total_shares }
  let user2 := reset_pending_reward pool2
    { user with shares := user_shares, locked := user_locked }
  some (amount, pool2, user2)

/-- The share price is never negative. -/
theorem share_price_nonneg (pool : PoolInfo) (price : ℚ)
    (h : share_price pool = some price) : 0 ≤ price := by
  unfold share_price at h
  by_cases h0 : pool.total_shares = 0
  · rw [if_pos h0] at h
    exact absurd h (by simp)
  · rw [if_neg h0] at h
    injection h with h
    rw [← h]
    positivity

/-- `bmul` is monotone in the balance for a nonnegative price. -/
theorem bmul_mono (a b : Balance) (p : ℚ) (hab : a ≤ b) (hp : 0 ≤ p) :
    bmul a p ≤ bmul b p := by
  unfold bmul
  exact Nat.floor_le_floor (mul_le_mul_of_nonneg_right (by exact_mod_cast hab) hp)

/-- C6: with a defined share price and a slash-settled user, `remove_stake`
removes `amount = min(shares * price, free_stake)` from `total_stake`,
`free_stake` and the user's `locked`, and `shares` from `total_shares` and the
user's `shares`; if `shares` exceeds the user's shares or the pool's total
shares it fails (`None`), making no change. -/
theorem remove_stake_characterization (pool : PoolInfo) (user : UserStakeInfo)
    (shares : Balance) :
    (∀ price, share_price pool = some price →
      user.locked = bmul user.shares price →
      shares ≤ user.shares → shares ≤ pool.total_shares →
      remove_stake pool user shares =
        some (min (bmul shares price) pool.free_stake,
          { pool with
              free_stake := pool.free_stake - min (bmul shares price) pool.free_stake,
              total_stake := pool.total_stake - min (bmul shares price) pool.free_stake,
              total_shares := pool.total_shares - shares },
          { user with
              shares := user.shares - shares,
              locked := user.locked - min (bmul shares price) pool.free_stake,
              reward_debt := bmul (user.shares - shares) pool.reward_acc })) ∧
    ((user.shares < shares ∨ pool.total_shares < shares) →
      remove_stake pool user shares = none) := by
  constructor
  · intro price hprice hsettled hus hts
    have hamount : min (bmul shares price) pool.free_stake ≤ user.locked := by
      calc min (bmul shares price) pool.free_stake ≤ bmul shares price := min_le_left _ _
        _ ≤ bmul user.shares price := bmul_mono _ _ _ hus (share_price_nonneg pool price hprice)
        _ = user.locked := hsettled.symm
    simp only [remove_stake, checkedSub, if_pos hts, if_pos hus, if_pos hamount, hprice,
      Option.bind_eq_bind, Option.some_bind, reset_pending_reward]
  · intro hexcess
    rcases Nat.lt_or_ge pool.total_shares shares with hts | hts
    · simp only [remove_stake, checkedSub, if_neg (Nat.not_le.mpr hts),
        Option.bind_eq_bind, Option.none_bind]
    · rcases hexcess with hus | hts2
      · have hne : pool.total_shares ≠ 0 := by
          intro h0
          rw [h0] at hts
          have : shares = 0 := Nat.le_zero.mp hts
          rw [this] at hus
          exact Nat.not_lt_zero _ hus
        simp only [remove_stake, checkedSub, if_pos hts, share_price, if_neg hne,
          if_neg (Nat.not_le.mpr hus), Option.bind_eq_bind, Option.some_bind,
          Option.none_bind]
      · exact absurd hts (Nat.not_le.mpr hts2)

/-- A concrete pool and user for the `remove_stake` witness: 100 shares and
100 stake (price 1), the user holds 40 shares with locked 40. -/
def pool6 : PoolInfo :=
  { pid := 0, owner := 1, payout_commission := none, owner_reward := 0, cap := none,
    reward_acc := 0, total_shares := 100, total_stake := 100, free_stake := 30,
    releasing_stake := 0, workers := [], withdraw_queue := [] }

def user6 : UserStakeInfo :=
  { user := 2, locked := 40, shares := 40, available_rewards := 0, reward_debt := 0 }

theorem remove_stake_characterization_witness :
    share_price pool6 = some 1 ∧
    user6.locked = bmul user6.shares 1 ∧
    (10 : Balance) ≤ user6.shares ∧ (10 : Balance) ≤ pool6.total_shares ∧
    remove_stake pool6 user6 10 =
      some (min (bmul 10 1) pool6.free_stake,
        { pool6 with
            free_stake := pool6.free_stake - min (bmul 10 1) pool6.free_stake,
            total_stake := pool6.total_stake - min (bmul 10 1) pool6.free_stake,
            total_shares := pool6.total_shares - 10 },
        { user6 with
            shares := user6.shares - 10,
            locked := user6.locked - min (bmul 10 1) pool6.free_stake,
            reward_debt := bmul (user6.shares - 10) pool6.reward_acc }) := by
  have hprice : share_price pool6 = some 1 := by
    unfold share_price pool6
    norm_num
  have hsettled : user6.locked = bmul user6.shares 1 := by
    unfold bmul user6
    norm_num
  exact ⟨hprice, hsettled, by norm_num [user6], by norm_num [pool6],
    (remove_stake_characterization pool6 user6 10).1 1 hprice hsettled
      (by norm_num [user6]) (by norm_num [pool6])⟩

/-- C8: settling the slash twice in a row returns a slashed amount of zero the
second time and leaves the user record unchanged, and settling the pending
reward twice in a row is a no-op the second time. -/
theorem settle_twice_idempotent (pool : PoolInfo) (user : UserStakeInfo) :
    (∀ s1 u1, settle_slash pool user = some (s1, u1) →
      settle_slash pool u1 = some (0, u1)) ∧
    settle_user_pending_reward pool (settle_user_pending_reward pool user) =
      settle_user_pending_reward pool user := by
  constructor
  · intro s1 u1 h
    unfold settle_slash at h ⊢
    cases hp : share_price pool with
    | none => rw [hp] at h; exact absurd h (by simp)
    | some price =>
      rw [hp] at h
      simp only [Option.some.injEq, Prod.mk.injEq] at h
      have hu1 : u1 = { user with locked := bmul user.shares price } := h.2.symm
      subst hu1
      simp [satSub]
  · unfold settle_user_pending_reward reset_pending_reward pending_reward acc_pending
    simp only
    congr 1
    have hle : satAdd user.available_rewards
        (satSub (bmul user.shares pool.reward_acc) user.reward_debt) ≤ U128MAX :=
      min_le_right _ _
    simp only [satSub, bmul]
    rw [Nat.sub_self]
    simp only [satAdd]
    rw [min_eq_left]
    · simp
    · exact hle

/-- Witness for `settle_twice_idempotent`: the slash-settlement half has a
hypothesis, discharged at the concrete `pool6`/`user6` (price 1). -/
theorem settle_twice_idempotent_witness :
    settle_slash pool6 user6 = some (0, user6) ∧
    settle_slash pool6 user6 = some (0, user6) := by
  have h : settle_slash pool6 user6 = some (0, user6) := by
    unfold settle_slash pool6 user6 share_price bmul satSub
    norm_num
  exact ⟨h, (settle_twice_idempotent pool6 user6).1 0 user6 h⟩

/-! ## Stake pool storage-level operations -/

/-- `Error<T>` of stakepool.rs (the unused `_PoolIsBusy` variant is omitted),
plus an explicit `Panic` case standing for `unwrap` / `expect` aborts. -/
inductive SPError
  | WorkerNotRegistered
  | BenchmarkMissing
  | WorkerExists
  | WorkerDoesNotExist
  | WorerInAnotherPool
  | UnauthorizedOperator
  | UnauthorizedPoolOwner
  | InadequateCapacity
  | StakeExceedsCapacity
  | PoolDoesNotExist
  | InsufficientContribution
  | InsufficientBalance
  | PoolStakeNotFound
  | InsufficientFreeStake
  | InvalidWithdrawalAmount
  | FailedToBindMinerAndWorker
  | InternalSubsidyPoolCannotWithdraw
  | PoolBankrupt
  | Panic
deriving DecidableEq, Repr

/-- The storage of the stakepool pallet, together with the external currency
collaborator's free balances (used by `Currency::free_balance` and
`Currency::slash`). -/
structure SPState where
  stakePools : Nat → Option PoolInfo
  poolStakers : Nat × AccountId → Option UserStakeInfo
  poolCount : Nat
  workerAssignments : WorkerPublicKey → Option Nat
  subAccountAssignments : AccountId → Option Nat
  stakeLedger : AccountId → Option Balance
  freeBalances : AccountId → Balance
  withdrawalTimestamps : List Nat
  withdrawalQueuedPools : Nat → Option (List Nat)

/-- `ledger_query` from stakepool.rs. -/
def ledger_query (st : SPState) (who : AccountId) : Balance :=
  (st.stakeLedger who).getD 0

/-- `ledger_accrue` from stakepool.rs (the currency lock is sized to the
ledger entry and is not modelled separately). -/
def ledger_accrue (st : SPState) (who : AccountId) (amount : Balance) : SPState :=
  { st with stakeLedger :=
      mapUpd st.stakeLedger who (some (satAdd (ledger_query st who) amount)) }

/-- `ledger_reduce` from stakepool.rs. -/
def ledger_reduce (st : SPState) (who : AccountId) (amount : Balance) : SPState :=
  { st with stakeLedger :=
      mapUpd st.stakeLedger who (some (satSub (ledger_query st who) amount)) }

/-- Modelled from the spec: `Currency::slash` of the currency collaborator
reduces the account's balance by the slashed amount. -/
def currency_slash (st : SPState) (who : AccountId) (amount : Balance) : SPState :=
  { st with freeBalances :=
      fun a => if a = who then satSub (st.freeBalances a) amount else st.freeBalances a }

/-- `maybe_settle_slash` from stakepool.rs (lines 741-757): always updates the
user's `locked` via `settle_slash`; only when the slashed amount is positive
does it slash the currency and reduce the ledger. -/
def maybe_settle_slash (pool : PoolInfo) (user : UserStakeInfo) (st : SPState) :
    UserStakeInfo × SPState :=
  match settle_slash pool user with
  | some su =>
    if 0 < su.1 then
      (su.2, ledger_reduce (currency_slash st su.2.user su.1) su.2.user su.1)
    else (su.2, st)
  | none => (user, st)

/-- The loop body of `try_process_withdraw_queue` (stakepool.rs lines
643-681), with explicit fuel: the Rust `while` loop does not always make the
queue shorter (when the truncated free-share count is zero it spins), so the
embedding runs at most `fuel` iterations; every theorem below holds for every
fuel value.  `none` models the `unwrap` / `expect` panics of the loop body. -/
def tpwq_go (pid : Nat) (price : ℚ) : Nat → PoolInfo → SPState → Option (PoolInfo × SPState)
  | 0, pool, st => some (pool, st)
  | fuel + 1, pool, st =>
    if pool.free_stake = 0 then some (pool, st)
    else
      match pool.withdraw_queue with
      | [] => some (pool, st)
      | w :: rest =>
        match st.poolStakers (pid, w.user) with
        | none => none
        | some user0 =>
          let user1 := settle_user_pending_reward pool user0
          let free_shares := if price = 0 then w.shares else bdiv pool.free_stake price
          let withdrawing_shares := min free_shares w.shares
          let us := maybe_settle_slash pool user1 st
          match remove_stake pool us.1 withdrawing_shares with
          | none => none
          | some rpu =>
            let pool2 := rpu.2.1
            let wshares := satSub w.shares withdrawing_shares
            let st3 := ledger_reduce us.2 rpu.2.2.user rpu.1
            let user4 := reset_pending_reward pool2 rpu.2.2
            let st4 := { st3 with
              poolStakers := mapUpd st3.poolStakers (pid, w.user) (some user4) }
            let pool3 :=
              if wshares = 0 then { pool2 with withdraw_queue := rest }
              else { pool2 with withdraw_queue := { w with shares := wshares } :: rest }
            tpwq_go pid price fuel pool3 st4

/-- `try_process_withdraw_queue` from stakepool.rs (lines 635-682): computes
the share price once and runs the processing loop; returns unchanged when the
pool has no shares. -/
def try_process_withdraw_queue (fuel : Nat) (pool : PoolInfo) (st : SPState) :
    Option (PoolInfo × SPState) :=
  match share_price pool with
  | none => some (pool, st)
  | some price => tpwq_go pool.pid price fuel pool st

/-- `maybe_add_withdraw_queue` from stakepool.rs (lines 699-725). -/
def maybe_add_withdraw_queue (st : SPState) (start_time pid : Nat) : SPState :=
  let t := st.withdrawalTimestamps
  let t2 :=
    match t.getLast? with
    | some last => if last < start_time then t ++ [start_time] else t
    | none => [start_time]
  let qp :=
    match st.withdrawalQueuedPools start_time with
    | some pool_list => if pid ∈ pool_list then pool_list else pool_list ++ [pid]
    | none => [pid]
  { st with
      withdrawalTimestamps := t2,
      withdrawalQueuedPools := mapUpd st.withdrawalQueuedPools start_time (some qp) }

/-- `try_withdraw` from stakepool.rs (lines 589-632): immediate fulfillment
from the free stake, with any unmet remainder pushed to the back of the
queue.  `none` models the `expect` panic on `remove_stake`. -/
def try_withdraw (pool : PoolInfo) (user : UserStakeInfo) (shares : Balance)
    (now : Nat) (st : SPState) : Option (PoolInfo × UserStakeInfo × SPState) :=
  let user1 := settle_user_pending_reward pool user
  let free_shares :=
    match share_price pool with
    | some price => if price ≠ 0 then bdiv pool.free_stake price else shares
    | none => shares
  let withdrawing_shares := min shares free_shares
  let queued_shares := shares - withdrawing_shares
  let step1 : Option (PoolInfo × UserStakeInfo × SPState) :=
    if 0 < withdrawing_shares then
      let us := maybe_settle_slash pool user1 st
      match remove_stake pool us.1 withdrawing_shares with
      | none => none
      | some rpu => some (rpu.2.1, rpu.2.2, ledger_reduce us.2 rpu.2.2.user rpu.1)
    else some (pool, user1, st)
  match step1 with
  | none => none
  | some pus =>
    let pool2 := pus.1
    let user2 := pus.2.1
    let st2 := pus.2.2
    let pool3 :=
      if 0 < queued_shares then
        { pool2 with withdraw_queue :=
            pool2.withdraw_queue ++ [⟨user2.user, queued_shares, now⟩] }
      else pool2
    let st3 := if 0 < queued_shares then maybe_add_withdraw_queue st2 now pool2.pid else st2
    some (pool3, reset_pending_reward pool3 user2, st3)

/-- The `withdraw` extrinsic from stakepool.rs (lines 453-485): when the
queue is non-empty the request is appended unconditionally; otherwise
immediate fulfillment is attempted via `try_withdraw`. -/
def withdraw (st : SPState) (now : Nat) (who : AccountId) (pid : Nat)
    (shares : Balance) : Except SPError SPState :=
  match st.poolStakers (pid, who) with
  | none => .error .PoolStakeNotFound
  | some user =>
    if 0 < shares ∧ shares ≤ user.shares then
      match st.stakePools pid with
      | none => .error .PoolDoesNotExist
      | some pool =>
        if pool.withdraw_queue ≠ [] then
          let pool2 := { pool with withdraw_queue :=
              pool.withdraw_queue ++ [⟨who, shares, now⟩] }
          let st2 := maybe_add_withdraw_queue st now pool.pid
          .ok { st2 with
                  poolStakers := mapUpd st2.poolStakers (pid, who) (some user),
                  stakePools := mapUpd st2.stakePools pid (some pool2) }
        else
          match try_withdraw pool user shares now st with
          | none => .error .Panic
          | some pus =>
            .ok { pus.2.2 with
                    poolStakers := mapUpd pus.2.2.poolStakers (pid, who) (some pus.2.1),
                    stakePools := mapUpd pus.2.2.stakePools pid (some pus.1) }
    else .error .InvalidWithdrawalAmount

/-- The `contribute` extrinsic from stakepool.rs (lines 386-442). -/
def contribute (st : SPState) (who : AccountId) (pid : Nat) (amount : Balance)
    (minContribution : Balance) (fuel : Nat) : Except SPError SPState :=
  if amount < minContribution then .error .InsufficientContribution
  else
    let free := st.freeBalances who
    let locked := ledger_query st who
    if amount ≤ free - locked then
      match st.stakePools pid with
      | none => .error .PoolDoesNotExist
      | some pool =>
        let capExceeded : Bool :=
          match pool.cap with
          | some c => decide (satSub c pool.total_stake < amount)
          | none => false
        if capExceeded then .error .StakeExceedsCapacity
        else if pool.total_shares = 0 ∨ 0 < pool.total_stake then
          let us :=
            match st.poolStakers (pid, who) with
            | some u => maybe_settle_slash pool (settle_user_pending_reward pool u) st
            | none =>
              ({ user := who, locked := 0, shares := 0, available_rewards := 0,
                 reward_debt := 0 }, st)
          let pu := add_stake pool us.1 amount
          let st2 := { us.2 with
            poolStakers := mapUpd us.2.poolStakers (pid, who) (some pu.2) }
          let st3 := ledger_accrue st2 who amount
          match try_process_withdraw_queue fuel pu.1 st3 with
          | none => .error .Panic
          | some ps =>
            .ok { ps.2 with stakePools := mapUpd ps.2.stakePools pid (some ps.1) }
        else .error .PoolBankrupt
    else .error .InsufficientBalance

/-- The `OnStopped` callback implementation from stakepool.rs (lines 876-883):
adds `orig_stake - slashed` to the pool's `releasing_stake`.  `none` models
the `expect` panics on the assignment and pool lookups. -/
def on_stopped (st : SPState) (worker : WorkerPublicKey) (orig_stake slashed : Balance) :
    Option SPState :=
  match st.workerAssignments worker with
  | none => none
  | some pid =>
    match st.stakePools pid with
    | none => none
    | some pool =>
      let returned := orig_stake - slashed
      let pool2 := { pool with releasing_stake := satAdd pool.releasing_stake returned }
      some { st with stakePools := mapUpd st.stakePools pid (some pool2) }

/-- The `OnReclaim` callback implementation from stakepool.rs (lines 844-867):
applies `pool.slash(slashed)` when `slashed ≠ 0`, moves `orig_stake - slashed`
from `releasing_stake` to `free_stake` and drains the withdrawal queue.
`none` models the `expect` panics. -/
def on_reclaim (st : SPState) (miner : AccountId) (orig_stake slashed : Balance)
    (fuel : Nat) : Option SPState :=
  match st.subAccountAssignments miner with
  | none => none
  | some pid =>
    match st.stakePools pid with
    | none => none
    | some pool =>
      let returned := orig_stake - slashed
      let pool1 := if slashed ≠ 0 then poolSlash pool slashed else pool
      let pool2 := { pool1 with
        free_stake := satAdd pool1.free_stake returned,
        releasing_stake := satSub pool1.releasing_stake returned }
      match try_process_withdraw_queue fuel pool2 st with
      | none => none
      | some ps =>
        some { ps.2 with stakePools := mapUpd ps.2.stakePools pid (some ps.1) }

/-! ## C3: the withdrawal queue is strictly FIFO -/

/-- `q2` is `q` with only its front request's remaining shares reduced (or
`q` itself).  Queue processing steps only ever produce such queues from
suffixes of the original queue. -/
def frontReduced : List WithdrawInfo → List WithdrawInfo → Prop
  | [], q2 => q2 = []
  | w :: rest, q2 => ∃ s, s ≤ w.shares ∧ q2 = { w with shares := s } :: rest

theorem frontReduced_refl (q : List WithdrawInfo) : frontReduced q q := by
  cases q with
  | nil => rfl
  | cons w rest => exact ⟨w.shares, le_refl _, rfl⟩

/-- One iteration of the withdraw-queue processing loop either pops the front
request or reduces its remaining shares, leaving the rest of the queue
untouched. -/
theorem tpwq_go_succ_shape (pid : Nat) (price : ℚ) (fuel : Nat) (pool : PoolInfo)
    (st : SPState) (w : WithdrawInfo) (rest : List WithdrawInfo)
    (pool2 : PoolInfo) (st2 : SPState)
    (hfree : ¬ pool.free_stake = 0)
    (hq : pool.withdraw_queue = w :: rest)
    (h : tpwq_go pid price (fuel + 1) pool st = some (pool2, st2)) :
    ∃ pool3 st4 s, s ≤ w.shares ∧
      (pool3.withdraw_queue = rest ∨
        pool3.withdraw_queue = { w with shares := s } :: rest) ∧
      tpwq_go pid price fuel pool3 st4 = some (pool2, st2) := by
  simp only [tpwq_go, hq, if_neg hfree] at h
  split at h
  · exact absurd h (by simp)
  · split at h
    · exact absurd h (by simp)
    · refine ⟨_, _, satSub w.shares
          (min (if price = 0 then w.shares else bdiv pool.free_stake price) w.shares),
        Nat.sub_le _ _, ?_, h⟩
      by_cases hz : satSub w.shares
          (min (if price = 0 then w.shares else bdiv pool.free_stake price) w.shares) = 0
      · left
        rw [if_pos hz]
      · right
        rw [if_neg hz]

/-- The queue-processing loop only pops front requests and possibly reduces
the new front request's shares: the resulting queue is a suffix of the
original with its first element's shares possibly lowered. -/
theorem tpwq_go_fifo (pid : Nat) (price : ℚ) :
    ∀ (fuel : Nat) (pool : PoolInfo) (st : SPState) (pool2 : PoolInfo) (st2 : SPState),
      tpwq_go pid price fuel pool st = some (pool2, st2) →
      ∃ n, frontReduced (pool.withdraw_queue.drop n) pool2.withdraw_queue := by
  intro fuel
  induction fuel with
  | zero =>
    intro pool st pool2 st2 h
    simp only [tpwq_go, Option.some.injEq, Prod.mk.injEq] at h
    rw [← h.1]
    refine ⟨0, ?_⟩
    rw [List.drop_zero]
    exact frontReduced_refl _
  | succ fuel ih =>
    intro pool st pool2 st2 h
    by_cases hfree : pool.free_stake = 0
    · rw [show tpwq_go pid price (fuel + 1) pool st = some (pool, st) by
        simp [tpwq_go, hfree]] at h
      simp only [Option.some.injEq, Prod.mk.injEq] at h
      rw [← h.1]
      refine ⟨0, ?_⟩
      rw [List.drop_zero]
      exact frontReduced_refl _
    · cases hq : pool.withdraw_queue with
      | nil =>
        rw [show tpwq_go pid price (fuel + 1) pool st = some (pool, st) by
          simp [tpwq_go, hfree, hq]] at h
        simp only [Option.some.injEq, Prod.mk.injEq] at h
        rw [← h.1, hq]
        refine ⟨0, ?_⟩
        rw [List.drop_zero]
        exact frontReduced_refl _
      | cons w rest =>
        obtain ⟨pool3, st4, s, hs, hq3, hrec⟩ :=
          tpwq_go_succ_shape pid price fuel pool st w rest pool2 st2 hfree hq h
        obtain ⟨n, hfr⟩ := ih pool3 st4 pool2 st2 hrec
        rcases hq3 with hq3 | hq3
        · refine ⟨n + 1, ?_⟩
          rw [List.drop_succ_cons, ← hq3]
          exact hfr
        · cases n with
          | zero =>
            rw [List.drop_zero, hq3] at hfr
            obtain ⟨s2, hs2, hfr2⟩ := hfr
            refine ⟨0, ?_⟩
            rw [List.drop_zero]
            exact ⟨s2, le_trans hs2 hs, hfr2⟩
          | succ m =>
            refine ⟨m + 1, ?_⟩
            rw [hq3, List.drop_succ_cons] at hfr
            rw [List.drop_succ_cons]
            exact hfr

/-- C3: the withdrawal queue is strictly FIFO.  First, when the queue is
non-empty, a new `withdraw` request is appended to the back (the pool record
changes only by the appended request and the caller's staker record is left
untouched — no immediate fulfillment).  Second, queue processing
(`try_process_withdraw_queue`, used after contributions and reclaims) only
pops requests from the front or reduces the front request's remaining shares:
the resulting queue is a suffix of the original with at most the first
remaining element's shares lowered, so request N is never fulfilled before
all requests before it are fully satisfied or removed. -/
theorem withdraw_queue_fifo :
    (∀ (st : SPState) (now : Nat) (who : AccountId) (pid : Nat) (shares : Balance)
      (user : UserStakeInfo) (pool : PoolInfo),
      st.poolStakers (pid, who) = some user →
      0 < shares → shares ≤ user.shares →
      st.stakePools pid = some pool →
      pool.withdraw_queue ≠ [] →
      ∃ st2, withdraw st now who pid shares = .ok st2 ∧
        st2.stakePools pid =
          some { pool with withdraw_queue :=
            pool.withdraw_queue ++ [⟨who, shares, now⟩] } ∧
        st2.poolStakers (pid, who) = some user) ∧
    (∀ (fuel : Nat) (pool : PoolInfo) (st : SPState) (pool2 : PoolInfo) (st2 : SPState),
      try_process_withdraw_queue fuel pool st = some (pool2, st2) →
      ∃ n, frontReduced (pool.withdraw_queue.drop n) pool2.withdraw_queue) := by
  constructor
  · intro st now who pid shares user pool hst hpos hle hpool hqueue
    have hok : withdraw st now who pid shares = .ok
        { maybe_add_withdraw_queue st now pool.pid with
            poolStakers := mapUpd (maybe_add_withdraw_queue st now pool.pid).poolStakers
              (pid, who) (some user),
            stakePools := mapUpd (maybe_add_withdraw_queue st now pool.pid).stakePools
              pid (some { pool with withdraw_queue :=
                pool.withdraw_queue ++ [⟨who, shares, now⟩] }) } := by
      simp only [withdraw, hst, hpool, if_pos (And.intro hpos hle), if_pos hqueue]
    refine ⟨_, hok, ?_, ?_⟩
    · simp [mapUpd]
    · simp [mapUpd]
  · intro fuel pool st pool2 st2 h
    unfold try_process_withdraw_queue at h
    cases hp : share_price pool with
    | none =>
      rw [hp] at h
      simp only [Option.some.injEq, Prod.mk.injEq] at h
      rw [← h.1]
      exact ⟨0, frontReduced_refl _⟩
    | some price =>
      rw [hp] at h
      exact tpwq_go_fifo pool.pid price fuel pool st pool2 st2 h

/-- A pool with a non-empty withdrawal queue (one pending request of 5 shares
by account 3). -/
def pool3c : PoolInfo := { pool6 with withdraw_queue := [⟨3, 5, 0⟩] }

/-- A concrete ledger state for the `withdraw` witness. -/
def spState3 : SPState :=
  { stakePools := mapUpd (fun _ => none) 0 (some pool3c),
    poolStakers := mapUpd (fun _ => none) (0, 2) (some user6),
    poolCount := 1,
    workerAssignments := fun _ => none,
    subAccountAssignments := fun _ => none,
    stakeLedger := fun _ => none,
    freeBalances := fun _ => 0,
    withdrawalTimestamps := [],
    withdrawalQueuedPools := fun _ => none }

theorem withdraw_queue_fifo_witness :
    spState3.poolStakers (0, 2) = some user6 ∧
    (∃ st2, withdraw spState3 7 2 0 10 = .ok st2 ∧
      st2.stakePools 0 = some { pool3c with withdraw_queue :=
        pool3c.withdraw_queue ++ [⟨2, 10, 7⟩] } ∧
      st2.poolStakers (0, 2) = some user6) :=
  ⟨rfl, withdraw_queue_fifo.1 spState3 7 2 0 10 user6 pool3c rfl (by decide)
    (by decide) rfl (by decide)⟩

/-- C4: with the earlier checks passing (minimum contribution, balance, pool
exists, cap not exceeded), `contribute` fails with `PoolBankrupt` exactly when
`total_shares > 0` and `total_stake = 0`; a pool with no shares, or with
positive stake, is never rejected on this ground.  (On an error the extrinsic
rolls back, so in this pure embedding an error carries no successor state.) -/
theorem contribute_bankrupt_characterization (st : SPState) (who : AccountId)
    (pid : Nat) (amount minContribution : Balance) (fuel : Nat) (pool : PoolInfo)
    (hmin : ¬ amount < minContribution)
    (hbal : amount ≤ st.freeBalances who - ledger_query st who)
    (hpool : st.stakePools pid = some pool)
    (hcap : ∀ c, pool.cap = some c → ¬ satSub c pool.total_stake < amount) :
    contribute st who pid amount minContribution fuel = .error .PoolBankrupt ↔
      0 < pool.total_shares ∧ pool.total_stake = 0 := by
  have hcapb : (match pool.cap with
      | some c => decide (satSub c pool.total_stake < amount)
      | none => false) = false := by
    cases hc : pool.cap with
    | none => rfl
    | some c => simpa using hcap c hc
  by_cases hbk : pool.total_shares = 0 ∨ 0 < pool.total_stake
  · constructor
    · intro h
      exfalso
      simp only [contribute, if_neg hmin, if_pos hbal, hpool, hcapb, Bool.false_eq_true,
        if_false, if_pos hbk] at h
      split at h
      · exact SPError.noConfusion (Except.error.inj h)
      · exact Except.noConfusion h
    · rintro ⟨hpos, hzero⟩
      exfalso
      rcases hbk with hbk | hbk
      · rw [hbk] at hpos
        exact Nat.lt_irrefl 0 hpos
      · rw [hzero] at hbk
        exact Nat.lt_irrefl 0 hbk
  · constructor
    · intro _
      constructor
      · rcases Nat.eq_zero_or_pos pool.total_shares with h0 | h0
        · exact absurd (Or.inl h0) hbk
        · exact h0
      · rcases Nat.eq_zero_or_pos pool.total_stake with h0 | h0
        · exact h0
        · exact absurd (Or.inr h0) hbk
    · intro _
      simp only [contribute, if_neg hmin, if_pos hbal, hpool, hcapb, Bool.false_eq_true,
        if_false, if_neg hbk]

/-- A bankrupt pool: positive shares, zero stake. -/
def poolBk : PoolInfo := { pool6 with total_stake := 0, free_stake := 0 }

/-- A ledger state holding the bankrupt pool, with account 2 well funded. -/
def spStateBk : SPState :=
  { spState3 with
      stakePools := mapUpd (fun _ => none) 0 (some poolBk),
      freeBalances := fun _ => 1000 }

theorem contribute_bankrupt_characterization_witness :
    ¬ (50 : Balance) < 1 ∧ spStateBk.stakePools 0 = some poolBk ∧
    contribute spStateBk 2 0 50 1 3 = .error .PoolBankrupt := by
  refine ⟨by decide, rfl, ?_⟩
  exact (contribute_bankrupt_characterization spStateBk 2 0 50 1 3 poolBk (by decide)
    (by decide) rfl (fun c hc => by simp [poolBk, pool6] at hc)).mpr (by decide)

/-- C1: on a completed reclaim the miner state machine invokes the `OnReclaim`
callback with the recorded stake (state reset to `Ready`, stake record
removed; see `reclaim`), and the ledger's `on_reclaim(miner, orig_stake,
slashed)` applies `pool.slash(slashed)` (reducing `total_stake` by `slashed`;
a no-op when `slashed = 0`), adds `orig_stake - slashed` to `free_stake`,
removes the same amount from `releasing_stake`, and then drains the
withdrawal queue with `try_process_withdraw_queue`. -/
theorem reclaim_invokes_on_reclaim_and_pool_accounting
    (ms : MiningState) (now : Nat) (miner : AccountId) (info : MinerInfo)
    (orig_stake : Balance) (st : SPState) (pid : Nat) (pool : PoolInfo)
    (slashed : Balance) (fuel : Nat)
    (hmi : ms.miners miner = some info)
    (hcool : info.state = MinerState.MiningCoolingDown)
    (helapsed : now - info.cool_down_start > ms.coolDownPeriod)
    (hstake : ms.stakes miner = some orig_stake)
    (hassign : st.subAccountAssignments miner = some pid)
    (hpool : st.stakePools pid = some pool)
    (hsl : slashed ≤ orig_stake)
    (hts : slashed ≤ pool.total_stake)
    (hfree : pool.free_stake + (orig_stake - slashed) ≤ U128MAX) :
    (∃ ms2, reclaim ms now miner = .ok (ms2, orig_stake)) ∧
    on_reclaim st miner orig_stake slashed fuel =
      (try_process_withdraw_queue fuel
        { pool with
            total_stake := pool.total_stake - slashed,
            free_stake := pool.free_stake + (orig_stake - slashed),
            releasing_stake := pool.releasing_stake - (orig_stake - slashed) } st).map
        (fun ps => { ps.2 with stakePools := mapUpd ps.2.stakePools pid (some ps.1) }) := by
  constructor
  · have hcan : can_reclaim info ms.coolDownPeriod now = true := by
      simp [can_reclaim, hcool, helapsed]
    have hok : reclaim ms now miner = .ok ({ ms with
        miners := mapUpd ms.miners miner
          (some { info with state := MinerState.Ready, cool_down_start := 0 }),
        stakes := mapUpd ms.stakes miner none }, orig_stake) := by
      simp [reclaim, hmi, hcan, hstake]
    exact ⟨_, hok⟩
  · have hpool1 : (if slashed ≠ 0 then poolSlash pool slashed else pool) =
        { pool with total_stake := pool.total_stake - slashed } := by
      by_cases hz : slashed = 0
      · subst hz
        rw [if_neg (by simp)]
        simp
      · rw [if_pos hz]
        rfl
    have hsat1 : satAdd pool.free_stake (orig_stake - slashed) =
        pool.free_stake + (orig_stake - slashed) := min_eq_left hfree
    simp only [on_reclaim, hassign, hpool, hpool1, satSub, hsat1]
    cases htp : try_process_withdraw_queue fuel
        { pool with
            total_stake := pool.total_stake - slashed,
            free_stake := pool.free_stake + (orig_stake - slashed),
            releasing_stake := pool.releasing_stake - (orig_stake - slashed) } st with
    | none => simp
    | some ps => simp

/-- A pool with releasing stake, backing worker 5 / sub-account miner 1. -/
def poolR : PoolInfo :=
  { pid := 0, owner := 1, payout_commission := none, owner_reward := 0, cap := none,
    reward_acc := 0, total_shares := 100, total_stake := 100, free_stake := 0,
    releasing_stake := 100, workers := [5], withdraw_queue := [] }

/-- A ledger state assigning worker 5 and sub-account 1 to pool 0. -/
def spStateR : SPState :=
  { stakePools := mapUpd (fun _ => none) 0 (some poolR),
    poolStakers := fun _ => none,
    poolCount := 1,
    workerAssignments := mapUpd (fun _ => none) 5 (some 0),
    subAccountAssignments := mapUpd (fun _ => none) 1 (some 0),
    stakeLedger := fun _ => none,
    freeBalances := fun _ => 0,
    withdrawalTimestamps := [],
    withdrawalQueuedPools := fun _ => none }

theorem reclaim_invokes_on_reclaim_and_pool_accounting_witness :
    miningState5.miners 1 = some coolingMinerInfo ∧
    (∃ ms2, reclaim miningState5 6 1 = .ok (ms2, 100)) ∧
    on_reclaim spStateR 1 100 20 4 =
      (try_process_withdraw_queue 4
        { poolR with
            total_stake := poolR.total_stake - 20,
            free_stake := poolR.free_stake + (100 - 20),
            releasing_stake := poolR.releasing_stake - (100 - 20) } spStateR).map
        (fun ps => { ps.2 with stakePools := mapUpd ps.2.stakePools 0 (some ps.1) }) := by
  refine ⟨rfl, ?_⟩
  exact reclaim_invokes_on_reclaim_and_pool_accounting miningState5 6 1 coolingMinerInfo
    100 spStateR 0 poolR 20 4 rfl rfl (by decide) rfl rfl rfl (by decide) (by decide)
    (by decide)

/-- C2: a successful `stop_mining` on a miner in an active mining state moves
it to `MiningCoolingDown` with `cool_down_start = now` (and emits the
`MiningStop` message), and the ledger's `OnStopped(worker, orig_stake,
slashed)` callback adds `orig_stake - slashed` to the pool's
`releasing_stake`. -/
theorem stop_mining_and_on_stopped_releasing
    (ms : MiningState) (now : Nat) (miner : AccountId) (worker : WorkerPublicKey)
    (info : MinerInfo) (st : SPState) (pid : Nat) (pool : PoolInfo)
    (orig_stake slashed : Balance)
    (hb : ms.minerBindings miner = some worker)
    (hm : ms.miners miner = some info)
    (h1 : info.state ≠ MinerState.Ready)
    (h2 : info.state ≠ MinerState.MiningCoolingDown)
    (hassign : st.workerAssignments worker = some pid)
    (hpool : st.stakePools pid = some pool)
    (hsat : pool.releasing_stake + (orig_stake - slashed) ≤ U128MAX) :
    (∃ ms2, stop_mining ms now miner = .ok ms2 ∧
      ms2.miners miner = some { info with
        state := MinerState.MiningCoolingDown, cool_down_start := now }) ∧
    on_stopped st worker orig_stake slashed =
      some { st with stakePools := (mapUpd st.stakePools pid
        (some { pool with releasing_stake :=
          pool.releasing_stake + (orig_stake - slashed) })) } := by
  constructor
  · have hok : stop_mining ms now miner = .ok { ms with
        miners := mapUpd ms.miners miner
          (some { info with state := MinerState.MiningCoolingDown, cool_down_start := now }),
        messages := ms.messages ++ [OutMessage.MiningStop worker] } := by
      simp only [stop_mining, hb, hm, if_pos (And.intro h1 h2)]
    refine ⟨_, hok, ?_⟩
    simp [mapUpd]
  · have hsat2 : satAdd pool.releasing_stake (orig_stake - slashed) =
        pool.releasing_stake + (orig_stake - slashed) := min_eq_left hsat
    simp only [on_stopped, hassign, hpool, hsat2]

theorem stop_mining_and_on_stopped_releasing_witness :
    miningState7.minerBindings 1 = some 5 ∧
    (∃ ms2, stop_mining miningState7 9 1 = .ok ms2 ∧
      ms2.miners 1 = some { coolingMinerInfo with
        state := MinerState.MiningCoolingDown, cool_down_start := 9 }) ∧
    on_stopped spStateR 5 100 10 =
      some { spStateR with stakePools := (mapUpd spStateR.stakePools 0
        (some { poolR with releasing_stake := poolR.releasing_stake + (100 - 10) })) } := by
  refine ⟨rfl, ?_⟩
  have h := stop_mining_and_on_stopped_releasing miningState7 9 1 5
    { coolingMinerInfo with state := MinerState.MiningIdle } spStateR 0 poolR 100 10
    rfl rfl (by decide) (by decide) rfl rfl (by decide)
  exact h

end Phala
